import Mathlib

/-!
Verification development for the poker hand tracker (src/poker_tracker.py).

The program is a Streamlit dashboard over a single CSV file
(`poker_hands.csv`).  We shallowly embed the two layers the claims
concern:

* Store layer (`init_data_file`, `load_hands`, `save_hand`): the file
  system is `Option Content` (`none` = the file does not exist), file
  content is a list of CSV rows, each row a list of string fields (the
  CSV text-level quoting/escaping performed by pandas `to_csv`/`read_csv`
  is faithful for fields, so a row is modelled directly as its list of
  field strings).  `pd.read_csv` is modelled by its documented behaviour:
  an empty file raises `EmptyDataError`; the first row is taken as the
  header; a subsequent row with MORE fields than the header raises
  `ParserError`; a row with fewer fields is padded with NaN; numeric
  columns keep their textual representation at this layer.
  `pd.concat([df, new_hand], ignore_index=True)` unions the columns
  (first frame's columns first) and aligns rows by column name, filling
  NaN for missing values; `to_csv(index=False)` writes the header row
  followed by the data rows.

* Aggregator layer (`stats_page` / `hand_history_page` computations):
  pure functions over a loaded record list.  A loaded record is a
  `HandRecord` whose `profit_loss` column is modelled as an exact
  rational (Python floats are modelled as `ℚ`).
-/

namespace PokerTracker

abbrev Row := List String
abbrev Content := List Row

/-- The fixed seven-column header written by `init_data_file` and by the
dict keys of `hand_data` in `log_hand_page` (source lines 12-15, 97-105). -/
def header7 : Row :=
  ["timestamp", "position", "hole_cards", "action", "result", "profit_loss", "notes"]

/-- Errors raised by `pd.read_csv`: `emptyData` for a zero-row file,
`parserError` ("Error tokenizing data") for a row with more fields than
the header row. -/
inductive ReadError where
  | emptyData : ReadError
  | parserError : ReadError
  deriving DecidableEq, Repr

/-- A pandas DataFrame at the string level: named columns and rows of
field strings (each row's length equals the number of columns). -/
structure DataFrame where
  columns : Row
  rows : List Row
  deriving DecidableEq, Repr

/-- Pandas pads a row that has fewer fields than the header with NaN. -/
def padRow (n : Nat) (r : Row) : Row :=
  r ++ List.replicate (n - r.length) "NaN"

/-- Model of `pd.read_csv` on a file's rows: error on an empty file,
otherwise the first row is the header.  The expected field width is the
larger of the header's width and the first data row's width: a first
data row with extra fields raises nothing — its leading extra field(s)
become an implicit index, which is dropped from the returned values
(and by `to_csv(index=False)` on rewrite).  A row exceeding the expected
width raises `ParserError`; shorter rows are NaN-padded on the right. -/
def read_csv (content : Content) : Except ReadError DataFrame :=
  match content with
  | [] => Except.error ReadError.emptyData
  | [hdr] => Except.ok ⟨hdr, []⟩
  | hdr :: first :: rest =>
    if (first :: rest).all (fun r => decide (r.length ≤ max hdr.length first.length)) then
      Except.ok ⟨hdr,
        (first :: rest).map (fun r =>
          (padRow (max hdr.length first.length) r).drop
            (max hdr.length first.length - hdr.length))⟩
    else
      Except.error ReadError.parserError

/-- Model of `df.to_csv(DATA_FILE, index=False)`: the header row followed
by the data rows. -/
def to_csv (df : DataFrame) : Content :=
  df.columns :: df.rows

/-- Source lines 10-16: `init_data_file` creates the file with only the
header row when it does not exist, and does nothing otherwise. -/
def init_data_file (fs : Option Content) : Option Content :=
  match fs with
  | none => some (to_csv ⟨header7, []⟩)
  | some c => some c

/-- Source lines 19-22: `load_hands` reads the CSV when the file exists
and returns an empty DataFrame (`pd.DataFrame()`: no columns, no rows)
otherwise. -/
def load_hands (fs : Option Content) : Except ReadError DataFrame :=
  match fs with
  | some c => read_csv c
  | none => Except.ok ⟨[], []⟩

/-- Value of column `c` in a row `row` whose frame has columns `cols`;
NaN when the column is absent (pandas alignment by column name). -/
def lookupField (cols : Row) (row : Row) (c : String) : String :=
  if cols.contains c then row.getD (cols.indexOf c) "NaN" else "NaN"

/-- Model of `pd.concat([df, new], ignore_index=True)`: the columns are
the union (first frame's columns first, then the second's new ones); the
first frame's rows are NaN-padded on the right for the added columns and
the second frame's rows are aligned to the combined columns by name. -/
def pd_concat (df new : DataFrame) : DataFrame :=
  let cols := df.columns ++ new.columns.filter (fun c => !(df.columns.contains c))
  ⟨cols,
    df.rows.map (fun r => r ++ List.replicate (cols.length - df.columns.length) "NaN")
      ++ new.rows.map (fun r => cols.map (lookupField new.columns r))⟩

/-- The `hand_data` dict built in `log_hand_page` (source lines 97-105):
seven fields, `profit_loss` carried by its on-disk text. -/
structure HandData where
  timestamp : String
  position : String
  hole_cards : String
  action : String
  result : String
  profit_loss : String
  notes : String
  deriving DecidableEq, Repr

/-- The CSV row of a `hand_data` dict, fields in dict-key order. -/
def HandData.row (h : HandData) : Row :=
  [h.timestamp, h.position, h.hole_cards, h.action, h.result, h.profit_loss, h.notes]

/-- Source lines 25-29: `save_hand` loads the current file, concatenates
the one-row frame `pd.DataFrame([hand_data])` (columns = the seven dict
keys) and rewrites the whole file.  An error from `load_hands`
propagates and nothing is written. -/
def save_hand (fs : Option Content) (hand : HandData) : Except ReadError Content :=
  match load_hands fs with
  | Except.error e => Except.error e
  | Except.ok df => Except.ok (to_csv (pd_concat df ⟨header7, [hand.row]⟩))

/-- Iterated `save_hand` over a list of hands; the first error aborts. -/
def save_all (fs : Option Content) : List HandData → Except ReadError (Option Content)
  | [] => Except.ok fs
  | h :: hs =>
    match save_hand fs h with
    | Except.error e => Except.error e
    | Except.ok c => save_all (some c) hs

/-- A loaded hand record as the aggregator sees it: the string columns
plus the `profit_loss` column parsed to a number, modelled as an exact
rational. -/
structure HandRecord where
  timestamp : String
  position : String
  hole_cards : String
  action : String
  result : String
  profit_loss : ℚ
  notes : String
  deriving DecidableEq, Repr

/-- Source line 169: `total_hands = len(df)`. -/
def total_hands (df : List HandRecord) : Nat :=
  df.length

/-- Source line 170: `total_profit = df['profit_loss'].sum()`. -/
def total_profit (df : List HandRecord) : ℚ :=
  (df.map HandRecord.profit_loss).sum

/-- Source line 171: `won_hands = len(df[df['result'] == 'Won'])`. -/
def won_hands (df : List HandRecord) : Nat :=
  (df.filter (fun r => r.result == "Won")).length

/-- Source line 172: `win_rate = (won_hands / total_hands * 100) if
total_hands > 0 else 0`. -/
def win_rate (df : List HandRecord) : ℚ :=
  if 0 < total_hands df then
    (won_hands df : ℚ) / (total_hands df : ℚ) * 100
  else 0

/-- Source lines 137-140: `df[(df['position'].isin(filter_position)) &
(df['result'].isin(filter_result))]`. -/
def filter_hands (df : List HandRecord) (filter_position filter_result : List String) :
    List HandRecord :=
  df.filter (fun r => filter_position.contains r.position && filter_result.contains r.result)

/-- Distinct values of a column in first-occurrence order, as
`df[col].unique()` / the group keys of a groupby produce them (groupby
sorts the keys, which only permutes the entries; the claims under
verification are invariant under entry order). -/
def uniqueVals (xs : List String) : List String :=
  xs.dedup

/-- Source line 190: `df.groupby('position')['profit_loss'].sum()
.sort_values(ascending=False)` — the summed profit per distinct
position, entries sorted by summed profit descending. -/
def position_stats (df : List HandRecord) : List (String × ℚ) :=
  ((uniqueVals (df.map HandRecord.position)).map
      (fun p => (p, ((df.filter (fun r => r.position == p)).map HandRecord.profit_loss).sum))).mergeSort
    (fun a b => decide (b.2 ≤ a.2))

/-- Source line 195: `df['position'].value_counts()` — the number of
rows per distinct position, entries sorted by count descending. -/
def position_counts (df : List HandRecord) : List (String × Nat) :=
  ((uniqueVals (df.map HandRecord.position)).map
      (fun p => (p, (df.filter (fun r => r.position == p)).length))).mergeSort
    (fun a b => decide (b.2 ≤ a.2))

/-! Helper lemmas shared by the claim theorems. -/

lemma HandData.row_length (h : HandData) : h.row.length = 7 := rfl

/-- Loading a well-formed file (fixed header, every row with seven
fields) succeeds and returns the data rows unchanged, in file order. -/
lemma load_hands_wf (rows : List Row) (hr : ∀ r ∈ rows, r.length = 7) :
    load_hands (some (header7 :: rows)) = Except.ok ⟨header7, rows⟩ := by
  match rows, hr with
  | [], _ => rfl
  | first :: rest, hr =>
    have hmax : max header7.length first.length = 7 := by
      rw [hr first (List.mem_cons_self first rest), show header7.length = 7 from rfl,
        Nat.max_self]
    have hall : (first :: rest).all
        (fun r => decide (r.length ≤ max header7.length first.length)) = true := by
      rw [List.all_eq_true]
      intro r hmem
      rw [decide_eq_true_eq, hmax, hr r hmem]
    have hpad : (first :: rest).map (fun r =>
        (padRow (max header7.length first.length) r).drop
          (max header7.length first.length - header7.length)) = first :: rest := by
      have hid : ∀ r ∈ first :: rest,
          (padRow (max header7.length first.length) r).drop
            (max header7.length first.length - header7.length) = id r := by
        intro r hmem
        rw [hmax]
        simp [padRow, hr r hmem, show header7.length = 7 from rfl]
      rw [List.map_congr_left hid, List.map_id]
    simp only [load_hands, read_csv, hall, if_true, hpad]

/-- Concatenating the one-row frame of a hand onto a frame that already
has the seven standard columns appends the hand's row. -/
lemma pd_concat_aligned (rows : List Row) (h : HandData) :
    pd_concat ⟨header7, rows⟩ ⟨header7, [h.row]⟩ = ⟨header7, rows ++ [h.row]⟩ := by
  have hfilter : header7.filter (fun c => !(List.contains header7 c)) = [] := rfl
  have hnew : header7.map (lookupField header7 h.row) = h.row := rfl
  simp only [pd_concat, hfilter, List.append_nil, Nat.sub_self, List.replicate,
    List.map_cons, List.map_nil, hnew]
  congr 1
  exact congrArg (fun l => l ++ [h.row]) (List.map_id' rows)

/-- One `save_hand` step on a well-formed file appends the new row. -/
lemma save_hand_wf (rs : List HandData) (h : HandData) :
    save_hand (some (header7 :: rs.map HandData.row)) h
      = Except.ok (header7 :: (rs.map HandData.row ++ [h.row])) := by
  have hload := load_hands_wf (rs.map HandData.row) (by
    intro r hmem
    rcases List.mem_map.1 hmem with ⟨a, _, rfl⟩
    exact a.row_length)
  simp only [save_hand, hload, to_csv, pd_concat_aligned]

set_option maxRecDepth 4000 in
/-- Iterated `save_hand` from a well-formed file appends the rows of all
the hands, in order. -/
lemma save_all_wf (hs : List HandData) :
    ∀ rs : List HandData,
      save_all (some (header7 :: rs.map HandData.row)) hs
        = Except.ok (some (header7 :: (rs ++ hs).map HandData.row)) := by
  induction hs with
  | nil => intro rs; simp only [save_all, List.append_nil]
  | cons h hs ih =>
    intro rs
    have hstep := save_hand_wf rs h
    have htail := ih (rs ++ [h])
    simp only [save_all, hstep]
    have h1 : (rs ++ [h]).map HandData.row = rs.map HandData.row ++ [h.row] := by
      rw [List.map_append, List.map_cons, List.map_nil]
    have h2 : (rs ++ [h]) ++ hs = rs ++ h :: hs := by
      rw [List.append_assoc, List.singleton_append]
    rw [h1, h2] at htail
    exact htail

/-! Claim theorems. -/

/-- C2: `init_data_file` creates the file containing only the header row
when it does not exist, is a no-op on any existing file content
(no truncation, no error), and is idempotent. -/
theorem init_data_file_idempotent :
    init_data_file none = some [header7]
    ∧ (∀ c : Content, init_data_file (some c) = some c)
    ∧ ∀ fs : Option Content, init_data_file (init_data_file fs) = init_data_file fs := by
  refine ⟨rfl, fun c => rfl, fun fs => ?_⟩
  cases fs <;> rfl

/-- C7: `load_hands` returns an empty DataFrame (no error) when the file
does not exist, and returns all rows of a well-formed existing file in
file order. -/
theorem load_hands_missing_and_order :
    load_hands none = Except.ok ⟨[], []⟩
    ∧ ∀ rows : List Row, (∀ r ∈ rows, r.length = 7) →
        load_hands (some (header7 :: rows)) = Except.ok ⟨header7, rows⟩ :=
  ⟨rfl, load_hands_wf⟩

/-- Witness for C7 at a concrete one-row file. -/
theorem load_hands_missing_and_order_witness :
    load_hands (some (header7 :: [["2025-01-01 10:00:00", "BTN", "AhKd", "Raise", "Won", "25.5", ""]]))
      = Except.ok ⟨header7, [["2025-01-01 10:00:00", "BTN", "AhKd", "Raise", "Won", "25.5", ""]]⟩ :=
  load_hands_missing_and_order.2
    [["2025-01-01 10:00:00", "BTN", "AhKd", "Raise", "Won", "25.5", ""]] (by decide)

/-- C10: `save_hand` on a missing file (no `init_data_file` ever called)
does not fail: it writes the seven-column header followed by the single
record's row, and `load_hands` then returns exactly that one record. -/
theorem save_hand_creates_file (h : HandData) :
    save_hand none h = Except.ok (header7 :: [h.row])
    ∧ load_hands (some (header7 :: [h.row])) = Except.ok ⟨header7, [h.row]⟩ :=
  ⟨rfl, rfl⟩

/-- C1: appending any sequence of records to a freshly initialized store
and then loading returns exactly those records, in append order, with
every field unchanged (round-trip). -/
theorem save_load_roundtrip (hs : List HandData) :
    save_all (init_data_file none) hs = Except.ok (some (header7 :: hs.map HandData.row))
    ∧ load_hands (some (header7 :: hs.map HandData.row))
        = Except.ok ⟨header7, hs.map HandData.row⟩ := by
  constructor
  · simpa using save_all_wf hs []
  · exact load_hands_wf _ (by
      intro r hmem
      rcases List.mem_map.1 hmem with ⟨a, _, rfl⟩
      exact a.row_length)

/-- C8 counterexample: a file whose single data row has six fields — a
row that cannot be decoded into the expected seven fields — loads with
no error at all; the short row is NaN-padded instead. -/
theorem load_hands_short_row_counterexample :
    (["2025-01-01 10:00:00", "BTN", "AhKd", "Raise", "Won", "25.5"] : Row).length ≠ header7.length
    ∧ ¬ (∃ e, load_hands
            (some [header7, ["2025-01-01 10:00:00", "BTN", "AhKd", "Raise", "Won", "25.5"]])
          = Except.error e)
    ∧ load_hands (some [header7, ["2025-01-01 10:00:00", "BTN", "AhKd", "Raise", "Won", "25.5"]])
        = Except.ok ⟨header7,
            [["2025-01-01 10:00:00", "BTN", "AhKd", "Raise", "Won", "25.5", "NaN"]]⟩ := by
  have hok : load_hands (some [header7, ["2025-01-01 10:00:00", "BTN", "AhKd", "Raise", "Won", "25.5"]])
      = Except.ok ⟨header7,
          [["2025-01-01 10:00:00", "BTN", "AhKd", "Raise", "Won", "25.5", "NaN"]]⟩ := by
    rfl
  refine ⟨by decide, ?_, hok⟩
  rintro ⟨e, he⟩
  rw [hok] at he
  exact Except.noConfusion he

/-- C8 (amended): `load_hands` on an existing file raises a read error
exactly when the file is empty, or some data row after the first has
more fields than the expected width — the larger of the header's and the
first data row's field counts.  A header-only file and a first data row
with extra fields (consumed as an implicit index) raise nothing; a row
with fewer fields is NaN-padded without error; and a missing header row
is not detected (the first file row is silently consumed as the
header). -/
theorem load_hands_error_iff :
    (∃ e, load_hands (some ([] : Content)) = Except.error e)
    ∧ (∀ hdr : Row, ¬ ∃ e, load_hands (some [hdr]) = Except.error e)
    ∧ ∀ (hdr first : Row) (rest : List Row),
        (∃ e, load_hands (some (hdr :: first :: rest)) = Except.error e)
          ↔ ∃ r ∈ rest, max hdr.length first.length < r.length := by
  refine ⟨⟨ReadError.emptyData, rfl⟩, fun hdr => ?_, fun hdr first rest => ?_⟩
  · rintro ⟨e, he⟩
    rw [show load_hands (some [hdr]) = Except.ok ⟨hdr, []⟩ from rfl] at he
    exact Except.noConfusion he
  · simp only [load_hands, read_csv]
    by_cases hall : (first :: rest).all
        (fun r => decide (r.length ≤ max hdr.length first.length)) = true
    · rw [if_pos hall]
      apply iff_of_false
      · rintro ⟨e, he⟩
        exact Except.noConfusion he
      · rintro ⟨r, hrm, hlt⟩
        rw [List.all_eq_true] at hall
        have hle := hall r (List.mem_cons_of_mem first hrm)
        rw [decide_eq_true_eq] at hle
        exact absurd hlt (not_lt.2 hle)
    · rw [if_neg hall]
      rw [List.all_eq_true] at hall
      simp only [decide_eq_true_eq] at hall
      push_neg at hall
      rcases hall with ⟨r, hrm, hlt⟩
      rcases List.mem_cons.1 hrm with h | h
      · exact absurd (h ▸ hlt) (not_lt.2 (Nat.le_max_right hdr.length first.length))
      · exact iff_of_true ⟨ReadError.parserError, rfl⟩ ⟨r, h, hlt⟩

/-- C6: `total_profit` is the exact (signed) sum of the `profit_loss`
values: it is `0` on the empty sequence, adds each record's
`profit_loss` — negative values included, the field is a signed
rational — and is additive over concatenation. -/
theorem total_profit_exact_sum :
    total_profit [] = 0
    ∧ (∀ (r : HandRecord) (df : List HandRecord),
        total_profit (r :: df) = r.profit_loss + total_profit df)
    ∧ ∀ df₁ df₂ : List HandRecord,
        total_profit (df₁ ++ df₂) = total_profit df₁ + total_profit df₂ := by
  refine ⟨rfl, fun r df => ?_, fun df₁ df₂ => ?_⟩
  · simp [total_profit]
  · simp [total_profit]

/-- C3: `win_rate` equals `won_hands / total_hands * 100` on every
non-empty record sequence, is `0` on the empty sequence (no
division-by-zero error), and equals `100` on every non-empty sequence
in which all records have result "Won". -/
theorem win_rate_formula :
    win_rate [] = 0
    ∧ (∀ df : List HandRecord, df ≠ [] →
        win_rate df = (won_hands df : ℚ) / (total_hands df : ℚ) * 100)
    ∧ ∀ df : List HandRecord, df ≠ [] → (∀ r ∈ df, r.result = "Won") →
        win_rate df = 100 := by
  have hpos : ∀ df : List HandRecord, df ≠ [] → 0 < total_hands df := by
    intro df hne
    exact List.length_pos.2 hne
  refine ⟨rfl, fun df hne => ?_, fun df hne hwon => ?_⟩
  · rw [win_rate, if_pos (hpos df hne)]
  · have hcount : won_hands df = total_hands df := by
      rw [won_hands, total_hands]
      rw [List.filter_eq_self.2 (by
        intro r hr
        exact beq_iff_eq.2 (hwon r hr))]
    have hn0 : ((total_hands df : ℚ)) ≠ 0 := by
      exact_mod_cast Nat.pos_iff_ne_zero.1 (hpos df hne)
    rw [win_rate, if_pos (hpos df hne), hcount, div_self hn0, one_mul]

/-- A concrete winning hand on the button, used as witness input. -/
def wonBtnHand : HandRecord :=
  ⟨"2025-01-01 10:00:00", "BTN", "AhKd", "Raise", "Won", 51 / 2, ""⟩

/-- Witness for C3: the two hypothesis-guarded parts applied at the
concrete one-record sequence `[wonBtnHand]`. -/
theorem win_rate_formula_witness :
    win_rate [wonBtnHand] = (won_hands [wonBtnHand] : ℚ) / (total_hands [wonBtnHand] : ℚ) * 100
    ∧ win_rate [wonBtnHand] = 100 :=
  ⟨win_rate_formula.2.1 [wonBtnHand] (by simp),
   win_rate_formula.2.2 [wonBtnHand] (by simp)
     (by intro r hr; rw [List.mem_singleton.1 hr]; rfl)⟩

/-- C4: `filter_hands` keeps exactly the records whose position is in
`filter_position` and whose result is in `filter_result` (a sublist of
the input, so order is preserved), and an empty position set or an empty
result set excludes everything. -/
theorem filter_hands_spec (df : List HandRecord) (ps rs : List String) :
    (∀ r : HandRecord, r ∈ filter_hands df ps rs ↔ r ∈ df ∧ r.position ∈ ps ∧ r.result ∈ rs)
    ∧ (filter_hands df ps rs).Sublist df
    ∧ filter_hands df [] rs = []
    ∧ filter_hands df ps [] = [] := by
  refine ⟨fun r => ?_, List.filter_sublist df, ?_, ?_⟩
  · simp [filter_hands, List.mem_filter, and_assoc]
  · simp [filter_hands]
  · simp [filter_hands]

/-- Summing a value over each key-group of a list, across a duplicate-free
key list covering every element, gives the sum over the whole list. -/
lemma sum_filter_partition {α M : Type} [AddCommMonoid M] (key : α → String) (val : α → M) :
    ∀ ks : List String, ks.Nodup → ∀ l : List α, (∀ x ∈ l, key x ∈ ks) →
      (ks.map (fun k => ((l.filter (fun x => key x == k)).map val).sum)).sum
        = (l.map val).sum := by
  intro ks
  induction ks with
  | nil =>
    intro _ l hl
    have hnil : l = [] := by
      cases l with
      | nil => rfl
      | cons a l => exact absurd (hl a (List.mem_cons_self a l)) (List.not_mem_nil _)
    subst hnil
    rfl
  | cons k ks ih =>
    intro hnd l hl
    have hk_not : k ∉ ks := (List.nodup_cons.1 hnd).1
    have hnd' : ks.Nodup := (List.nodup_cons.1 hnd).2
    have htail : ∀ k' ∈ ks,
        (l.filter (fun x => !(key x == k))).filter (fun x => key x == k')
          = l.filter (fun x => key x == k') := by
      intro k' hk'
      rw [List.filter_filter]
      apply List.filter_congr
      intro x _
      by_cases hxk : (key x == k') = true
      · have hx' : key x = k' := beq_iff_eq.1 hxk
        have hne : (key x == k) = false := by
          apply beq_eq_false_iff_ne.2
          rw [hx']
          intro hkk
          exact hk_not (hkk ▸ hk')
        rw [hxk, hne]
        rfl
      · rw [Bool.not_eq_true] at hxk
        rw [hxk]
        rfl
    have hmem' : ∀ x ∈ l.filter (fun x => !(key x == k)), key x ∈ ks := by
      intro x hx
      rw [List.mem_filter] at hx
      rcases List.mem_cons.1 (hl x hx.1) with h | h
      · exfalso
        have := hx.2
        rw [h] at this
        simp at this
      · exact h
    have hgroups : (ks.map (fun k0 => ((l.filter (fun x => key x == k0)).map val).sum))
        = ks.map (fun k0 =>
            (((l.filter (fun x => !(key x == k))).filter (fun x => key x == k0)).map val).sum) := by
      apply List.map_congr_left
      intro k' hk'
      rw [htail k' hk']
    have hsplit : ((l.filter (fun x => key x == k)).map val).sum
          + ((l.filter (fun x => !(key x == k))).map val).sum = (l.map val).sum := by
      have hperm := (List.filter_append_perm (fun x => key x == k) l).map val
      have hsum := hperm.sum_eq
      rw [List.map_append, List.sum_append] at hsum
      exact hsum
    rw [List.map_cons, List.sum_cons, hgroups,
      ih hnd' (l.filter (fun x => !(key x == k))) hmem', hsplit]

/-- Mapping the constant one and summing counts the elements. -/
lemma sum_map_one {α : Type} (l : List α) : (l.map (fun _ => (1 : ℕ))).sum = l.length := by
  induction l with
  | nil => rfl
  | cons a l ih => simp [ih, Nat.add_comm]

/-- Counting each key-group of a list, across a duplicate-free key list
covering every element, gives the length of the whole list. -/
lemma length_filter_partition {α : Type} (key : α → String) :
    ∀ ks : List String, ks.Nodup → ∀ l : List α, (∀ x ∈ l, key x ∈ ks) →
      (ks.map (fun k => (l.filter (fun x => key x == k)).length)).sum = l.length := by
  intro ks hnd l hl
  have h := sum_filter_partition key (fun _ => (1 : ℕ)) ks hnd l hl
  rw [sum_map_one] at h
  rw [← h]
  congr 1
  apply List.map_congr_left
  intro k _
  rw [sum_map_one]

/-- C5: the entries of `position_stats` sum to `total_profit` and the
entries of `position_counts` sum to `total_hands`: the per-position
groupings partition the record sequence. -/
theorem position_groupings_partition (df : List HandRecord) :
    ((position_stats df).map Prod.snd).sum = total_profit df
    ∧ ((position_counts df).map Prod.snd).sum = total_hands df := by
  have hnd : (uniqueVals (df.map HandRecord.position)).Nodup := List.nodup_dedup _
  have hmem : ∀ x ∈ df, x.position ∈ uniqueVals (df.map HandRecord.position) := by
    intro x hx
    exact List.mem_dedup.2 (List.mem_map_of_mem _ hx)
  constructor
  · have hperm :=
      (List.mergeSort_perm
        ((uniqueVals (df.map HandRecord.position)).map
          (fun p => (p, ((df.filter (fun r => r.position == p)).map HandRecord.profit_loss).sum)))
        (fun a b => decide (b.2 ≤ a.2))).map (Prod.snd (α := String) (β := ℚ))
    rw [position_stats, hperm.sum_eq, List.map_map]
    have h := sum_filter_partition HandRecord.position HandRecord.profit_loss
      (uniqueVals (df.map HandRecord.position)) hnd df hmem
    rw [total_profit, ← h]
    rfl
  · have hperm :=
      (List.mergeSort_perm
        ((uniqueVals (df.map HandRecord.position)).map
          (fun p => (p, (df.filter (fun r => r.position == p)).length)))
        (fun a b => decide (b.2 ≤ a.2))).map (Prod.snd (α := String) (β := ℕ))
    rw [position_counts, hperm.sum_eq, List.map_map]
    have h := length_filter_partition HandRecord.position
      (uniqueVals (df.map HandRecord.position)) hnd df hmem
    rw [total_hands, ← h]
    rfl

end PokerTracker
